import Mathlib

/-!
Shallow embedding of the reconciliation and statistics-accumulation engine of
the `utilityapi` integration (files `statistics_helper.py`, `coordinator.py`,
`__init__.py`).  Python floats are modelled as exact rationals (the claims are
about values and accumulation order, not rounding), Python `None`/numbers/
strings appearing in payload fields are modelled by small inductive types, and
a raised Python exception is modelled by `Except.error`.
-/

namespace UtilityAPI

/-- Model of a Python scalar payload value as it can appear in the `usage` /
`cost` / `value` fields of a reading or bill: `none` is Python `None`,
`num q` a numeric value (int or float, falsy exactly when zero),
`strnum q` a non-empty string that `float()` parses to `q` (always truthy),
and `junk` any other truthy value on which `float()` raises. -/
inductive PVal where
  | none
  | num (q : ℚ)
  | strnum (q : ℚ)
  | junk
deriving DecidableEq, Repr

/-- Python truthiness of a `PVal` (`None`, `0` and `0.0` are falsy). -/
def PVal.truthy : PVal → Bool
  | .none => false
  | .num q => decide (q ≠ 0)
  | .strnum _ => true
  | .junk => true

/-- Result of Python `float(v)`: `some q` on success, `none` when it raises. -/
def PVal.toFloat : PVal → Option ℚ
  | .none => Option.none
  | .num q => some q
  | .strnum q => some q
  | .junk => Option.none

/-- Whether the value is Python `None` (the `is not None` test). -/
def PVal.isNone : PVal → Bool
  | .none => true
  | _ => false

/-- Python `v or w` on two payload values. -/
def pvOr (v w : PVal) : PVal := if v.truthy then v else w

/-- Python `v or 0`: keep `v` when truthy, otherwise the number `0`. -/
def pyOrZero (v : PVal) : PVal := pvOr v (.num 0)

/-- Model of a Python `datetime`: `wall` is the wall-clock value in seconds
since the epoch of the datetime's own clock, `tz` its fixed UTC offset in
seconds (`none` for a naive datetime). -/
structure PyDateTime where
  wall : Int
  tz : Option Int
deriving DecidableEq, Repr

/-- Model of `homeassistant.util.dt.as_utc`: an aware datetime is shifted to
offset zero keeping the instant; a naive datetime is interpreted in the local
time zone (offset `localOff` seconds) and converted to UTC. -/
def asUTC (localOff : Int) (d : PyDateTime) : PyDateTime :=
  match d.tz with
  | some off => ⟨d.wall - off, some 0⟩
  | Option.none => ⟨d.wall - localOff, some 0⟩

/-- Model of `dt.replace(minute=0, second=0, microsecond=0)`: truncate the
wall clock down to the hour. -/
def truncHour (d : PyDateTime) : PyDateTime :=
  ⟨d.wall - d.wall % 3600, d.tz⟩

/-- Model of the value found in an hour record's `start` field, classified by
how `_parse_hour_start` sees it: an actual `datetime` object, a value whose
string form parses as a date-time, a value whose string form parses as a bare
date (`day` counts days since 1970-01-01), or anything else (`None`, garbage
strings, ...) on which both parses fail. -/
inductive StartVal where
  | dt (d : PyDateTime)
  | sdt (d : PyDateTime)
  | sdate (day : Int)
  | bad
deriving DecidableEq, Repr

/-- A raised Python exception. -/
inductive PyErr where
  | attributeError
deriving DecidableEq, Repr

/-- Embedding of `_parse_hour_start` (statistics_helper.py lines 20-35):
a datetime (given or parsed) is converted to UTC and truncated to the hour;
a bare date becomes naive midnight of that day converted to UTC; when neither
parse succeeds the Python code reaches `d.year` on `None` and raises
`AttributeError`. -/
def parse_hour_start (localOff : Int) : StartVal → Except PyErr PyDateTime
  | .dt d => .ok (truncHour (asUTC localOff d))
  | .sdt d => .ok (truncHour (asUTC localOff d))
  | .sdate day => .ok (asUTC localOff ⟨day * 86400, Option.none⟩)
  | .bad => .error .attributeError

/-- One element of the `hours` iterable handed to
`async_write_hourly_usage_cost`: the `start`, `usage` and `cost` fields of the
hour dict. -/
structure Hour where
  start : StartVal
  usage : PVal
  cost : PVal
deriving DecidableEq, Repr

/-- Key computation performed by `sorted(hours, key=...)`: the UTC instant (in
seconds) of the parsed hour start. -/
def hourKey (localOff : Int) (h : Hour) : Except PyErr Int :=
  (parse_hour_start localOff h.start).map PyDateTime.wall

/-- Decoration step of `sorted(hours, key=_parse_hour_start(...))`: compute the
key of each hour in list order, propagating the first raised exception. -/
def keyedHours (localOff : Int) : List Hour → Except PyErr (List (Int × Hour))
  | [] => .ok []
  | h :: t =>
    match hourKey localOff h with
    | .error e => .error e
    | .ok k =>
      match keyedHours localOff t with
      | .error e => .error e
      | .ok r => .ok ((k, h) :: r)

/-- Comparison used to sort the decorated hours ascending by key. -/
def hourLe (a b : Int × Hour) : Bool := decide (a.1 ≤ b.1)

/-- Model of `running_usage += float(h.get("usage") or 0)` under
`try/except`: a failing coercion leaves the running sum unchanged. -/
def stepUsage (running : ℚ) (h : Hour) : ℚ :=
  match (pyOrZero h.usage).toFloat with
  | some q => running + q
  | Option.none => running

/-- Model of `running_cost += float(h.get("cost") or 0)` under `try/except`. -/
def stepCost (running : ℚ) (h : Hour) : ℚ :=
  match (pyOrZero h.cost).toFloat with
  | some q => running + q
  | Option.none => running

/-- The usage delta an hour contributes to the running usage sum. -/
def contribU (h : Hour) : ℚ := ((pyOrZero h.usage).toFloat).getD 0

/-- The loop of `async_write_hourly_usage_cost` (lines 102-117) over the
sorted, key-decorated hours: every hour appends a usage row at the new running
usage sum; a cost row is appended only when the hour's `cost` is not `None`. -/
def foldRows (ru rc : ℚ) : List (Int × Hour) → List (Int × ℚ) × List (Int × ℚ)
  | [] => ([], [])
  | (t, h) :: rest =>
    let r := foldRows (stepUsage ru h) (stepCost rc h) rest
    ((t, stepUsage ru h) :: r.1,
     if h.cost.isNone then r.2 else (t, stepCost rc h) :: r.2)

/-- Embedding of `async_write_hourly_usage_cost` (statistics_helper.py lines
38-122) given the last stored usage and cost sums already looked up: sort the
hours by parsed start ascending and build the usage and cost rows to upsert.
Returns `Except.error` when a start value makes `_parse_hour_start` raise. -/
def async_write_hourly_usage_cost (localOff : Int) (lastU lastC : ℚ)
    (hours : List Hour) : Except PyErr (List (Int × ℚ) × List (Int × ℚ)) :=
  match keyedHours localOff hours with
  | .error e => .error e
  | .ok keyed => .ok (foldRows lastU lastC (keyed.mergeSort hourLe))

/-- Sum of the usage contributions of the hours whose key is at most `T`. -/
def sumLe (l : List (Int × Hour)) (T : Int) : ℚ :=
  ((l.filter (fun p => p.1 ≤ T)).map (fun p => contribU p.2)).sum

/-- Value of the last row carrying timestamp `T` in a row list — the value an
upsert keyed by timestamp retains for `T`. -/
def lastAt (rows : List (Int × ℚ)) (T : Int) : Option ℚ :=
  ((rows.filter (fun p => p.1 = T)).getLast?).map Prod.snd

/-- Model of `cost_meta["unit_of_measurement"] = currency or "USD"`
(statistics_helper.py line 90). -/
def costMetaCurrency (currency : Option String) : String :=
  match currency with
  | some s => if s ≠ "" then s else "USD"
  | Option.none => "USD"

/-- One external-statistics series as persisted by the recorder: points sorted
ascending by hour-start timestamp, one point per timestamp. -/
abbrev Series := List (Int × ℚ)

/-- Value of the last (most recent) row of a series, as returned by
`async_get_last_statistics(..., 1, ..., include_sum=True)`. -/
def lastSum (s : Series) : Option ℚ := (s.getLast?).map Prod.snd

/-- The last persisted cumulative sum, zero when no sum is persisted
(lines 60-75 of statistics_helper.py). -/
def lastOrZero (s : Series) : ℚ := (lastSum s).getD 0

/-- Upsert of a single `(timestamp, sum)` row into a sorted series: replace
the row with the same timestamp or insert at the correct position. -/
def upsertPoint : Series → Int × ℚ → Series
  | [], p => [p]
  | (t, v) :: rest, (u, w) =>
    if u < t then (u, w) :: (t, v) :: rest
    else if u = t then (u, w) :: rest
    else (t, v) :: upsertPoint rest (u, w)

/-- Model of `async_add_external_statistics`: upsert every row, keyed by
hour-start timestamp, in row order. -/
def upsertRows (s : Series) (rows : List (Int × ℚ)) : Series :=
  rows.foldl upsertPoint s

/-- The persisted state for one meter: its usage and cost series. -/
structure Store where
  usage : Series
  cost : Series
deriving DecidableEq, Repr

/-- One whole call of `async_write_hourly_usage_cost` against the store: read
the last sums fresh, build the rows, and upsert each non-empty row list
(lines 119-122 guard on non-emptiness). -/
def write_with_store (localOff : Int) (st : Store) (hours : List Hour) :
    Except PyErr Store :=
  match async_write_hourly_usage_cost localOff (lastOrZero st.usage)
      (lastOrZero st.cost) hours with
  | .error e => .error e
  | .ok (urows, crows) =>
    .ok ⟨if urows.isEmpty then st.usage else upsertRows st.usage urows,
         if crows.isEmpty then st.cost else upsertRows st.cost crows⟩

/-- Python truthiness of a string-or-`None` field (empty string is falsy). -/
def strTruthy : Option String → Bool
  | Option.none => false
  | some s => decide (s ≠ "")

/-- Python `a or b` on two string-or-`None` values. -/
def orStr (a b : Option String) : Option String := if strTruthy a then a else b

/-- One datapoint of a reading: `value`, `unit` and optional `cost`. -/
structure Datapoint where
  value : PVal
  unit : Option String
  cost : PVal
deriving DecidableEq, Repr

/-- One interval reading: start/end timestamps as raw payload strings, its
datapoints, and an optional reading-level cost. -/
structure Reading where
  start : Option String
  stop : Option String
  datapoints : List Datapoint
  cost : PVal
deriving DecidableEq, Repr

/-- One element of the `intervals` array (its `readings` list; a missing or
falsy `readings` field is the empty list, per `inter.get("readings") or []`). -/
structure Interval where
  readings : List Reading
deriving DecidableEq, Repr

/-- One normalized hourly record, the dict built at coordinator.py lines
96-102 (and __init__.py lines 89-97): usage is the float sum of the
datapoint values, cost is `some` exactly when a cost was found. -/
structure Entry where
  start : Option String
  stop : Option String
  usage : ℚ
  cost : Option ℚ
  unit : Option String
deriving DecidableEq, Repr

/-- The datapoint loop of the normalizer (coordinator.py lines 69-76, also
__init__.py lines 81-87): `usage += float(dp.value)` under `try/except`, and
`unit = unit or dp.unit`, carried across readings. -/
def readingDatapoints (unit0 : Option String) (dps : List Datapoint) :
    ℚ × Option String :=
  dps.foldl (fun acc dp => (acc.1 + (dp.value.toFloat).getD 0, orStr acc.2 dp.unit))
    (0, unit0)

/-- The cost extraction of the normalizer (coordinator.py lines 78-94): sum
the non-`None`, float-coercible datapoint costs, then the reading-level cost;
the flag records whether any coercion succeeded. -/
def readingCost (dps : List Datapoint) (rcost : PVal) : ℚ × Bool :=
  let s := dps.foldl (fun (acc : ℚ × Bool) dp =>
    if dp.cost.isNone then acc
    else
      match dp.cost.toFloat with
      | some q => (acc.1 + q, true)
      | Option.none => acc) (0, false)
  if rcost.isNone then s
  else
    match rcost.toFloat with
    | some q => (s.1 + q, true)
    | Option.none => s

/-- The hourly record built for one reading, given the unit accumulated so
far (coordinator.py lines 96-102). -/
def readingEntry (unit0 : Option String) (r : Reading) : Entry :=
  let du := readingDatapoints unit0 r.datapoints
  let dc := readingCost r.datapoints r.cost
  ⟨r.start, r.stop, du.1, if dc.2 then some dc.1 else Option.none, du.2⟩

/-- Day-bucket key of a reading (coordinator.py lines 104-105):
`s = start or ""`, then the first 10 characters of `s` when `s` is truthy,
otherwise the target day ("yesterday"). -/
def readingDayKey (yesterday : String) (r : Reading) : String :=
  match r.start with
  | Option.none => yesterday
  | some s => if s = "" then yesterday else s.take 10

/-- `by_day.setdefault(day_key, []).append(entry)` on an insertion-ordered
association list. -/
def appendDay (m : List (String × List Entry)) (k : String) (e : Entry) :
    List (String × List Entry) :=
  match m with
  | [] => [(k, [e])]
  | (k', es) :: rest =>
    if k' = k then (k', es ++ [e]) :: rest else (k', es) :: appendDay rest k e

/-- Lookup of a day bucket. -/
def lookupDay (m : List (String × List Entry)) (k : String) :
    Option (List Entry) :=
  match m with
  | [] => Option.none
  | (k', es) :: rest => if k' = k then some es else lookupDay rest k

/-- The loop-carried state of the normalizer: yesterday's running totals, the
accumulated unit, the day buckets and yesterday's flat hour list. -/
structure NormState where
  total_val : ℚ
  total_cost : ℚ
  unit : Option String
  by_day : List (String × List Entry)
  hours : List Entry
deriving DecidableEq, Repr

/-- Processing of one reading (coordinator.py lines 66-112): build its entry,
group it under its day key, and when the key is the target day, add to the
running totals (cost only when found) and append to the hours list. -/
def stepReading (yesterday : String) (st : NormState) (r : Reading) :
    NormState :=
  let e := readingEntry st.unit r
  let dk := readingDayKey yesterday r
  let bd := appendDay st.by_day dk e
  if dk = yesterday then
    ⟨st.total_val + e.usage,
     match e.cost with
     | some c => st.total_cost + c
     | Option.none => st.total_cost,
     e.unit, bd, st.hours ++ [e]⟩
  else
    ⟨st.total_val, st.total_cost, e.unit, bd, st.hours⟩

/-- The whole normalization pass over the `intervals` array
(coordinator.py lines 58-112). -/
def normalize_intervals (yesterday : String) (arr : List Interval) :
    NormState :=
  ((arr.map Interval.readings).flatten).foldl (stepReading yesterday)
    ⟨0, 0, Option.none, [], []⟩

/-- The assembled daily summary (coordinator.py lines 114-121): usage and
cost collapse to `None` when falsy (zero), currency is the constant "USD". -/
structure Daily where
  date : String
  usage : Option ℚ
  cost : Option ℚ
  unit : Option String
  currency : String
deriving DecidableEq, Repr

/-- `daily.update({...})` of coordinator.py lines 114-121. -/
def assemble_daily (yesterday : String) (st : NormState) : Daily :=
  ⟨yesterday,
   if st.total_val ≠ 0 then some st.total_val else Option.none,
   if st.total_cost ≠ 0 then some st.total_cost else Option.none,
   st.unit, "USD"⟩

/-- Model of a bill-period bound value, classified by how the parsing chain
`parse_datetime` then `parse_date` sees it: `dtv d` parses as a date-time
whose calendar date is day number `d` (days since 1970-01-01), `dov d` parses
as a bare date `d`, `empty` is the empty string, `bad` any other value on
which both parses fail. -/
inductive SVal where
  | none
  | empty
  | dtv (d : Int)
  | dov (d : Int)
  | bad
deriving DecidableEq, Repr

/-- Python truthiness of a bound value. -/
def SVal.truthy : SVal → Bool
  | .none => false
  | .empty => false
  | _ => true

/-- The date obtained from a bound by `parse_datetime(...).date()` with a
`parse_date` fallback (coordinator.py lines 148-167). -/
def svalToDate : SVal → Option Int
  | .dtv d => some d
  | .dov d => some d
  | _ => Option.none

/-- Python `a or b` on two bound values. -/
def svOr (a b : SVal) : SVal := if a.truthy then a else b

/-- One bill from the provider payload: the `period` sub-object's bounds, the
top-level bounds, and the amount fields. -/
structure Bill where
  period_start : SVal
  period_end : SVal
  top_start : SVal
  top_end : SVal
  total : PVal
  amount_due : PVal
  amount : PVal
deriving DecidableEq, Repr

/-- `b.get("total") or b.get("amount_due") or b.get("amount")`
(coordinator.py line 142). -/
def billTotal (b : Bill) : PVal := pvOr (pvOr b.total b.amount_due) b.amount

/-- The parsed period bounds of a bill when both are truthy and parsable
(coordinator.py lines 140-167): `period.start or b.start` and
`period.end or b.end`, each coerced to a date. -/
def billDates (b : Bill) : Option (Int × Int) :=
  let ps := svOr b.period_start b.top_start
  let pe := svOr b.period_end b.top_end
  if ps.truthy && pe.truthy then
    match svalToDate ps, svalToDate pe with
    | some a, some c => some (a, c)
    | _, _ => Option.none
  else Option.none

/-- The bill-selection loop (coordinator.py lines 138-172): walk the bills in
source order; skip a bill whose total does not coerce to a float or whose
bounds are falsy or unparsable; on the first bill whose period contains the
target day, return `total / ((p_end - p_start).days or 1)`. -/
def findBill (target : Int) : List Bill → Option ℚ
  | [] => Option.none
  | b :: rest =>
    match (billTotal b).toFloat with
    | Option.none => findBill target rest
    | some tf =>
      match billDates b with
      | some (psd, ped) =>
        let days : Int := if ped - psd = 0 then 1 else ped - psd
        if psd ≤ target ∧ target < ped then some (tf / (days : ℚ))
        else findBill target rest
      | Option.none => findBill target rest

/-- Whether a bill is the kind `findBill` can select for the target day:
coercible total, parsable truthy bounds, period containing the day. -/
def billEligible (target : Int) (b : Bill) : Bool :=
  (billTotal b).toFloat.isSome &&
    match billDates b with
    | some (a, c) => decide (a ≤ target) && decide (target < c)
    | Option.none => false

/-- The daily cost estimate a bill yields: total divided by the period length
in days, with minimum divisor 1. -/
def billDailyCost (b : Bill) : ℚ :=
  match (billTotal b).toFloat, billDates b with
  | some tf, some (a, c) => tf / ((max 1 (c - a) : Int) : ℚ)
  | _, _ => 0

/-- Distribution of a daily cost estimate across the day's hours
(coordinator.py lines 175-183): proportional to usage when the summed usage
is positive, otherwise evenly with `len(hours) or 1` as divisor. -/
def distributeCost (est : ℚ) (hrs : List Entry) : List Entry :=
  let sumU := (hrs.map Entry.usage).sum
  if 0 < sumU then
    hrs.map (fun h => { h with cost := some (est * (h.usage / sumU)) })
  else
    let n : Int := if hrs.length = 0 then 1 else hrs.length
    hrs.map (fun h => { h with cost := some (est / (n : ℚ)) })

/-- The whole estimation step (coordinator.py lines 127-183): run only when
the reported daily cost is `None` or exactly `0`; when a bill is found, set
the daily cost to the estimate and rewrite the hours' costs. -/
def estimate_and_distribute (target : Int) (bills : List Bill)
    (dcost : Option ℚ) (hrs : List Entry) : Option ℚ × List Entry :=
  if dcost = Option.none ∨ dcost = some 0 then
    match findBill target bills with
    | some est => (some est, distributeCost est hrs)
    | Option.none => (dcost, hrs)
  else (dcost, hrs)

/-- One reading of the bulk-import normalization (__init__.py lines 78-97):
same usage and unit accumulation as the coordinator, but the record's cost is
the literal `None`. -/
def importReadingStep (acc : List Entry × Option String) (r : Reading) :
    List Entry × Option String :=
  let du := readingDatapoints acc.2 r.datapoints
  (acc.1 ++ [⟨r.start, r.stop, du.1, Option.none, du.2⟩], du.2)

/-- Normalization of one imported day's `intervals` payload
(__init__.py lines 71-97); the unit accumulator restarts at `None` each day. -/
def import_day (arr : List Interval) : List Entry × Option String :=
  ((arr.map Interval.readings).flatten).foldl importReadingStep
    ([], Option.none)

/-- The arguments of one `async_write_hourly_usage_cost` call. -/
structure WriteCall where
  meter : String
  unit : Option String
  currency : Option String
  hours : List Entry
deriving DecidableEq, Repr

/-- The statistics-write call issued for one imported day
(__init__.py line 99): currency is the literal "USD". -/
def import_write_call (meter : String) (arr : List Interval) : WriteCall :=
  ⟨meter, (import_day arr).2, some "USD", (import_day arr).1⟩

/-- The day walk of the import service (__init__.py lines 66-100):
`while day < end: ... day = day + 1`, producing each day's normalized
records. -/
def import_walk (fetch : Int → List Interval) (day e : Int) :
    List (Int × (List Entry × Option String)) :=
  if day < e then (day, import_day (fetch day)) :: import_walk fetch (day + 1) e
  else []
termination_by (e - day).toNat
decreasing_by
  omega

theorem stepUsage_eq (ru : ℚ) (h : Hour) : stepUsage ru h = ru + contribU h := by
  unfold stepUsage contribU
  cases (pyOrZero h.usage).toFloat <;> simp

theorem foldRows_fst_keys (l : List (Int × Hour)) :
    ∀ ru rc : ℚ, ((foldRows ru rc l).1).map Prod.fst = l.map Prod.fst := by
  induction l with
  | nil => intro ru rc; rfl
  | cons p rest ih =>
    intro ru rc
    obtain ⟨t, h⟩ := p
    simp [foldRows, ih]

theorem getLast?_cons_ne_nil {α : Type} (a : α) {l : List α} (h : l ≠ []) :
    (a :: l).getLast? = l.getLast? := by
  cases l with
  | nil => exact absurd rfl h
  | cons b m => exact List.getLast?_cons_cons

theorem lastAt_cons_mem (t : Int) (v : ℚ) (rows : List (Int × ℚ)) (T : Int)
    (hT : T ∈ rows.map Prod.fst) :
    lastAt ((t, v) :: rows) T = lastAt rows T := by
  unfold lastAt
  have hne : rows.filter (fun p => p.1 = T) ≠ [] := by
    obtain ⟨p, hp, hpT⟩ := List.mem_map.1 hT
    intro hnil
    have := List.filter_eq_nil_iff.1 hnil p hp
    simp [hpT] at this
  by_cases ht : t = T
  · subst ht
    rw [List.filter_cons, if_pos (by simp), getLast?_cons_ne_nil _ hne]
  · rw [List.filter_cons, if_neg (by simp [ht])]

theorem lastAt_cons_not_mem (t : Int) (v : ℚ) (rows : List (Int × ℚ)) (T : Int)
    (hT : ¬ T ∈ rows.map Prod.fst) :
    lastAt ((t, v) :: rows) T = if t = T then some v else Option.none := by
  unfold lastAt
  have hnil : rows.filter (fun p => p.1 = T) = [] := by
    apply List.filter_eq_nil_iff.2
    intro p hp
    simp only [decide_eq_true_eq]
    intro hpT
    exact hT (List.mem_map.2 ⟨p, hp, hpT⟩)
  rw [List.filter_cons, hnil]
  by_cases ht : t = T <;> simp [ht]

theorem lastAt_foldRows (T : Int) :
    ∀ (l : List (Int × Hour)) (ru rc : ℚ),
      l.Pairwise (fun a b => a.1 ≤ b.1) → T ∈ l.map Prod.fst →
      lastAt ((foldRows ru rc l).1) T = some (ru + sumLe l T) := by
  intro l
  induction l with
  | nil => intro ru rc _ hm; simp at hm
  | cons p rest ih =>
    intro ru rc hp hm
    obtain ⟨t, h⟩ := p
    have hrel : ∀ q ∈ rest, t ≤ q.1 := (List.pairwise_cons.1 hp).1
    have hprest := (List.pairwise_cons.1 hp).2
    have hfold : (foldRows ru rc ((t, h) :: rest)).1
        = (t, stepUsage ru h) :: (foldRows (stepUsage ru h) (stepCost rc h) rest).1 := rfl
    have hkeys := foldRows_fst_keys rest (stepUsage ru h) (stepCost rc h)
    by_cases hTr : T ∈ rest.map Prod.fst
    · have htT : t ≤ T := by
        obtain ⟨q, hq, hqT⟩ := List.mem_map.1 hTr
        exact hqT ▸ hrel q hq
      have hsum : sumLe ((t, h) :: rest) T = contribU h + sumLe rest T := by
        unfold sumLe
        rw [List.filter_cons]
        simp [htT]
      rw [hfold, lastAt_cons_mem _ _ _ _ (hkeys ▸ hTr), ih _ _ hprest hTr,
        stepUsage_eq, hsum]
      ring_nf
    · have htT : t = T := by
        rcases List.mem_map.1 hm with ⟨q, hq, hqT⟩
        rcases List.mem_cons.1 hq with h1 | h2
        · rw [h1] at hqT; exact hqT
        · exact absurd (List.mem_map.2 ⟨q, h2, hqT⟩) hTr
      subst htT
      have hrest0 :
          (List.map (fun p => contribU p.2)
            (List.filter (fun p => decide (p.1 ≤ t)) rest)).sum = 0 := by
        have hfe : rest.filter (fun p => p.1 ≤ t) = [] := by
          apply List.filter_eq_nil_iff.2
          intro q hq
          simp only [decide_eq_true_eq]
          intro hle
          have hqT : q.1 = t := le_antisymm hle (hrel q hq)
          exact hTr (List.mem_map.2 ⟨q, hq, hqT⟩)
        rw [hfe]
        simp
      have hsum : sumLe ((t, h) :: rest) t = contribU h := by
        unfold sumLe
        rw [List.filter_cons, if_pos (by simp)]
        simp [hrest0]
      rw [hfold, lastAt_cons_not_mem _ _ _ _ (by rw [hkeys]; exact hTr)]
      simp [stepUsage_eq, hsum]

theorem keyedHours_map_snd (localOff : Int) :
    ∀ (hours : List Hour) (keyed : List (Int × Hour)),
      keyedHours localOff hours = .ok keyed → keyed.map Prod.snd = hours := by
  intro hours
  induction hours with
  | nil =>
    intro keyed hk
    unfold keyedHours at hk
    cases hk
    rfl
  | cons h t ih =>
    intro keyed hk
    unfold keyedHours at hk
    cases hkk : hourKey localOff h with
    | error e => rw [hkk] at hk; cases hk
    | ok k =>
      rw [hkk] at hk
      cases hkt : keyedHours localOff t with
      | error e => rw [hkt] at hk; cases hk
      | ok r =>
        rw [hkt] at hk
        cases hk
        simp [ih r hkt]

theorem foldRows_snd_keys (l : List (Int × Hour)) :
    ∀ ru rc : ℚ,
      ((foldRows ru rc l).2).map Prod.fst
        = (l.filter (fun p => !(p.2.cost.isNone))).map Prod.fst := by
  induction l with
  | nil => intro ru rc; rfl
  | cons p rest ih =>
    intro ru rc
    obtain ⟨t, h⟩ := p
    by_cases hc : h.cost.isNone = true
    · simp [foldRows, hc, ih]
    · simp [foldRows, hc, ih]

/-- C1: the spec and the writer's own docstring promise that writing the same
`hours` batch twice leaves the stored cumulative series unchanged in value.
The code instead re-reads the most recent stored sum — which after the first
call already includes the batch — and adds the batch again.  Writing the
single hour `{start: day 0, usage: 1, cost: None}` into an empty store twice
stores cumulative usage 1 after the first call and 2 after the second. -/
theorem c1_write_not_idempotent :
    write_with_store 0 ⟨[], []⟩ [⟨.sdate 0, .num 1, .none⟩]
      = .ok ⟨[(0, 1)], []⟩ ∧
    write_with_store 0 ⟨[(0, 1)], []⟩ [⟨.sdate 0, .num 1, .none⟩]
      = .ok ⟨[(0, 2)], []⟩ ∧
    ((⟨[(0, 2)], []⟩ : Store) ≠ (⟨[(0, 1)], []⟩ : Store)) := by
  refine ⟨?_, ?_, by decide⟩ <;>
    norm_num [write_with_store, async_write_hourly_usage_cost, keyedHours,
      hourKey, Except.map, parse_hour_start, asUTC, List.mergeSort_singleton,
      foldRows, stepUsage, stepCost, pyOrZero, pvOr, PVal.truthy, PVal.toFloat,
      PVal.isNone, lastOrZero, lastSum, upsertRows, upsertPoint]

/-- C2: in one call of the writer, the cumulative usage value emitted for an
hour-start `T` (the value the keyed upsert retains for `T`) equals the last
persisted cumulative usage sum — zero when nothing is persisted — plus the
sum of the batch's usage contributions (missing usage counting 0) over all
batch hours whose normalized start is at most `T`; the batch is sorted
ascending by normalized hour-start before accumulating. -/
theorem c2_cumulative_usage (localOff : Int) (st : Store) (hours : List Hour)
    (keyed : List (Int × Hour)) (urows crows : List (Int × ℚ)) (T : Int)
    (hk : keyedHours localOff hours = .ok keyed)
    (hw : async_write_hourly_usage_cost localOff (lastOrZero st.usage)
        (lastOrZero st.cost) hours = .ok (urows, crows))
    (hT : T ∈ keyed.map Prod.fst) :
    keyed.map Prod.snd = hours ∧
    lastOrZero ([] : Series) = 0 ∧
    lastAt urows T = some (lastOrZero st.usage + sumLe keyed T) := by
  refine ⟨keyedHours_map_snd localOff hours keyed hk, rfl, ?_⟩
  unfold async_write_hourly_usage_cost at hw
  rw [hk] at hw
  injection hw with h1
  have hu : urows = (foldRows (lastOrZero st.usage) (lastOrZero st.cost)
      (keyed.mergeSort hourLe)).1 := (congrArg Prod.fst h1).symm
  have hperm : (keyed.mergeSort hourLe).Perm keyed := List.mergeSort_perm keyed hourLe
  have hsorted : (keyed.mergeSort hourLe).Pairwise (fun a b => a.1 ≤ b.1) := by
    have := @List.sorted_mergeSort (Int × Hour) hourLe
      (fun a b c hab hbc => by
        simp only [hourLe, decide_eq_true_eq] at hab hbc ⊢
        exact le_trans hab hbc)
      (fun a b => by
        simp only [hourLe, Bool.or_eq_true, decide_eq_true_eq]
        exact le_total a.1 b.1)
      keyed
    exact this.imp (fun hab => by
      simp only [hourLe, decide_eq_true_eq] at hab
      exact hab)
  have hmem : T ∈ (keyed.mergeSort hourLe).map Prod.fst :=
    ((hperm.map Prod.fst).mem_iff).2 hT
  have hsumeq : sumLe (keyed.mergeSort hourLe) T = sumLe keyed T := by
    unfold sumLe
    exact ((hperm.filter _).map _).sum_eq
  rw [hu, lastAt_foldRows T _ _ _ hsorted hmem, hsumeq]

theorem c2_cumulative_usage_witness :
    lastAt [((0 : Int), (2 : ℚ))] 0
      = some (lastOrZero (Store.mk [] []).usage
          + sumLe [((0 : Int), Hour.mk (.sdate 0) (.num 2) .none)] 0) := by
  have happ := c2_cumulative_usage 0 ⟨[], []⟩ [⟨.sdate 0, .num 2, .none⟩]
    [(0, ⟨.sdate 0, .num 2, .none⟩)] [(0, 2)] [] 0 (by rfl)
    (by simp [async_write_hourly_usage_cost, keyedHours, hourKey, Except.map,
      parse_hour_start, asUTC, List.mergeSort_singleton, foldRows, stepUsage,
      stepCost, pyOrZero, pvOr, PVal.truthy, PVal.toFloat, PVal.isNone,
      lastOrZero, lastSum])
    (by simp)
  exact happ.2.2

/-- C3: an hour whose cost is `None` leaves the running cost sum unchanged
and emits no cost point; a cost point is emitted for an hour exactly when its
cost is not `None` (the emitted cost keys are the keys of the non-null-cost
hours in sorted order); hence a batch in which no hour carries a cost writes
no cost point at all — no plateau value is recorded. -/
theorem c3_null_cost_no_plateau (localOff : Int) (lU lC : ℚ)
    (hours : List Hour) (keyed : List (Int × Hour))
    (urows crows : List (Int × ℚ))
    (hk : keyedHours localOff hours = .ok keyed)
    (hw : async_write_hourly_usage_cost localOff lU lC hours
        = .ok (urows, crows)) :
    (∀ rc : ℚ, ∀ h : Hour, h.cost.isNone = true → stepCost rc h = rc) ∧
    crows.map Prod.fst
      = ((keyed.mergeSort hourLe).filter
          (fun p => !(p.2.cost.isNone))).map Prod.fst ∧
    ((∀ h ∈ hours, h.cost.isNone = true) → crows = []) := by
  unfold async_write_hourly_usage_cost at hw
  rw [hk] at hw
  injection hw with h1
  have hc : crows = (foldRows lU lC (keyed.mergeSort hourLe)).2 :=
    (congrArg Prod.snd h1).symm
  have hstep : ∀ rc : ℚ, ∀ h : Hour, h.cost.isNone = true → stepCost rc h = rc := by
    intro rc h hnone
    cases hcost : h.cost with
    | none => simp [stepCost, hcost, pyOrZero, pvOr, PVal.truthy, PVal.toFloat]
    | num q => rw [hcost] at hnone; exact absurd hnone (by simp [PVal.isNone])
    | strnum q => rw [hcost] at hnone; exact absurd hnone (by simp [PVal.isNone])
    | junk => rw [hcost] at hnone; exact absurd hnone (by simp [PVal.isNone])
  refine ⟨hstep, ?_, ?_⟩
  · rw [hc]
    exact foldRows_snd_keys _ lU lC
  · intro hall
    have hsnd := keyedHours_map_snd localOff hours keyed hk
    have hfe : (keyed.mergeSort hourLe).filter (fun p => !(p.2.cost.isNone)) = [] := by
      apply List.filter_eq_nil_iff.2
      intro p hp
      have hpk : p ∈ keyed := (List.mergeSort_perm keyed hourLe).subset hp
      have hph : p.2 ∈ hours := hsnd ▸ List.mem_map.2 ⟨p, hpk, rfl⟩
      simp [hall p.2 hph]
    have hmap : crows.map Prod.fst = [] := by
      rw [hc, foldRows_snd_keys _ lU lC, hfe]
      rfl
    exact List.map_eq_nil_iff.1 hmap

theorem c3_null_cost_no_plateau_witness :
    ([((0 : Int), (7 : ℚ))] : List (Int × ℚ)).map Prod.fst
      = (([((0 : Int), Hour.mk (.sdate 0) (.num 1) (.num 7))].mergeSort
          hourLe).filter (fun p => !(p.2.cost.isNone))).map Prod.fst := by
  have happ := c3_null_cost_no_plateau 0 0 0 [⟨.sdate 0, .num 1, .num 7⟩]
    [(0, ⟨.sdate 0, .num 1, .num 7⟩)] [(0, 1)] [(0, 7)]
    (by simp [keyedHours, hourKey, Except.map, parse_hour_start, asUTC])
    (by simp [async_write_hourly_usage_cost, keyedHours, hourKey, Except.map,
      parse_hour_start, asUTC, List.mergeSort_singleton, foldRows, stepUsage,
      stepCost, pyOrZero, pvOr, PVal.truthy, PVal.toFloat, PVal.isNone])
  exact happ.2.1

/-- C4 counterexample: a target day with one reading whose two datapoint
costs are present and sum to exactly zero.  The assembled summary reports a
daily cost of `None`, not `0`: the Python truthiness test
`total_cost_reported if total_cost_reported else None` collapses an exact
zero sum into the no-data signal, contradicting the claim that zero-summing
present cost records report `0`. -/
theorem c4_zero_sum_reports_null :
    (normalize_intervals "2024-01-15"
        [⟨[⟨some "2024-01-15T00:00:00Z", some "2024-01-15T01:00:00Z",
            [⟨.num 2, some "kwh", .num 3⟩, ⟨.num 1, Option.none, .num (-3)⟩],
            .none⟩]⟩]).hours.map Entry.cost = [some 0] ∧
    (assemble_daily "2024-01-15"
        (normalize_intervals "2024-01-15"
          [⟨[⟨some "2024-01-15T00:00:00Z", some "2024-01-15T01:00:00Z",
              [⟨.num 2, some "kwh", .num 3⟩, ⟨.num 1, Option.none, .num (-3)⟩],
              .none⟩]⟩])).cost = Option.none ∧
    (Option.none : Option ℚ) ≠ some 0 := by
  have h1 : ("2024-01-15T00:00:00Z" = "") = False := by simp
  have h2 : "2024-01-15T00:00:00Z".take 10 = "2024-01-15" := by decide
  refine ⟨?_, ?_, by simp⟩ <;>
    norm_num [normalize_intervals, stepReading, readingEntry, readingDatapoints,
      readingCost, readingDayKey, appendDay, lookupDay, PVal.isNone,
      PVal.toFloat, assemble_daily, h1, h2]

/-- C4 amended: the assembled daily cost is nullable, but `None` does not
distinguish "no data" from zero — a day whose present cost records sum to
exactly zero reports `None` (the zero collapses into the no-data signal),
and only a nonzero sum is reported as itself. -/
theorem c4_daily_cost_truthiness (yesterday : String) (arr : List Interval) :
    ((normalize_intervals yesterday arr).total_cost = 0 →
      (assemble_daily yesterday (normalize_intervals yesterday arr)).cost
        = Option.none) ∧
    ((normalize_intervals yesterday arr).total_cost ≠ 0 →
      (assemble_daily yesterday (normalize_intervals yesterday arr)).cost
        = some (normalize_intervals yesterday arr).total_cost) := by
  constructor <;> intro h <;> simp [assemble_daily, h]

theorem c4_daily_cost_truthiness_witness :
    (assemble_daily "2024-01-01" (normalize_intervals "2024-01-01" [])).cost
      = Option.none :=
  (c4_daily_cost_truthiness "2024-01-01" []).1 rfl

/-- C8 counterexample: on an input that parses as neither a date-time nor a
bare date (Python `None`, an arbitrary object, a garbage string),
`_parse_hour_start` reaches `d.year` on `None` and raises `AttributeError`
instead of returning a value or an absence signal. -/
theorem c8_parse_hour_start_raises :
    parse_hour_start 0 StartVal.bad = .error PyErr.attributeError := rfl

/-- C8 amended: for an input that is a datetime or whose string form parses
as a date-time or a bare date, `_parse_hour_start` returns a UTC result on an
hour boundary (a bare date becoming that date's local midnight converted to
UTC), provided the local offset is a whole number of hours; for every other
input (Python `None` included) it raises `AttributeError` — it is not
exception-free. -/
theorem c8_parse_hour_start_partial (localOff : Int) (v : StartVal)
    (hoff : localOff % 3600 = 0) :
    (v = StartVal.bad ∧ parse_hour_start localOff v = .error .attributeError) ∨
    (∃ d : PyDateTime, parse_hour_start localOff v = .ok d ∧
      d.tz = some 0 ∧ d.wall % 3600 = 0) := by
  cases v with
  | bad => exact Or.inl ⟨rfl, rfl⟩
  | dt d =>
    refine Or.inr ⟨truncHour (asUTC localOff d), rfl, ?_, ?_⟩ <;>
      unfold asUTC truncHour <;> cases d.tz <;> simp <;> omega
  | sdt d =>
    refine Or.inr ⟨truncHour (asUTC localOff d), rfl, ?_, ?_⟩ <;>
      unfold asUTC truncHour <;> cases d.tz <;> simp <;> omega
  | sdate day =>
    refine Or.inr ⟨asUTC localOff ⟨day * 86400, Option.none⟩, rfl, rfl, ?_⟩
    unfold asUTC
    simp only
    omega

theorem c8_parse_hour_start_partial_witness :
    ((0 : Int) % 3600 = 0) ∧
    ((StartVal.sdate 1 = StartVal.bad ∧
        parse_hour_start 0 (StartVal.sdate 1) = .error .attributeError) ∨
     (∃ d : PyDateTime, parse_hour_start 0 (StartVal.sdate 1) = .ok d ∧
        d.tz = some 0 ∧ d.wall % 3600 = 0)) :=
  ⟨by decide, c8_parse_hour_start_partial 0 (StartVal.sdate 1) (by decide)⟩

theorem lookupDay_appendDay (k : String) (e : Entry) :
    ∀ m : List (String × List Entry),
      lookupDay (appendDay m k e) k = some ((lookupDay m k).getD [] ++ [e]) := by
  intro m
  induction m with
  | nil => simp [appendDay, lookupDay]
  | cons p rest ih =>
    obtain ⟨k', es⟩ := p
    by_cases hk : k' = k
    · simp [appendDay, lookupDay, hk]
    · simp [appendDay, lookupDay, hk, ih]

/-- C9: a reading whose `start` is absent (`None`) or the empty string gets
the target day ("yesterday") as its day-bucket key, so its record is counted
in yesterday's usage total, advances the cost tally when a cost is present,
is appended to the yesterday hours list, and is appended to yesterday's day
bucket. -/
theorem c9_absent_start_goes_to_yesterday (yesterday : String)
    (st : NormState) (r : Reading)
    (hs : r.start = Option.none ∨ r.start = some "") :
    readingDayKey yesterday r = yesterday ∧
    (stepReading yesterday st r).hours = st.hours ++ [readingEntry st.unit r] ∧
    (stepReading yesterday st r).total_val
      = st.total_val + (readingEntry st.unit r).usage ∧
    (stepReading yesterday st r).total_cost
      = (match (readingEntry st.unit r).cost with
         | some c => st.total_cost + c
         | Option.none => st.total_cost) ∧
    lookupDay (stepReading yesterday st r).by_day yesterday
      = some ((lookupDay st.by_day yesterday).getD []
          ++ [readingEntry st.unit r]) := by
  have hdk : readingDayKey yesterday r = yesterday := by
    rcases hs with h | h <;> simp [readingDayKey, h]
  refine ⟨hdk, ?_, ?_, ?_, ?_⟩ <;>
    simp [stepReading, hdk, lookupDay_appendDay]

theorem c9_absent_start_goes_to_yesterday_witness :
    lookupDay
        (stepReading "2024-01-15" ⟨0, 0, Option.none, [], []⟩
          ⟨Option.none, Option.none, [], .none⟩).by_day "2024-01-15"
      = some ((lookupDay ([] : List (String × List Entry)) "2024-01-15").getD []
          ++ [readingEntry Option.none ⟨Option.none, Option.none, [], .none⟩]) :=
  (c9_absent_start_goes_to_yesterday "2024-01-15" ⟨0, 0, Option.none, [], []⟩
    ⟨Option.none, Option.none, [], .none⟩ (Or.inl rfl)).2.2.2.2

/-- C10: the currency attached to every assembled daily summary is the
constant "USD" whatever the provider payload contains; the bulk-import path
passes the literal "USD" to the statistics writer; and the writer's cost
series metadata falls back to "USD" when its currency argument is missing or
empty, and passes "USD" through. -/
theorem c10_currency_always_usd :
    (∀ (yesterday : String) (arr : List Interval),
       (assemble_daily yesterday (normalize_intervals yesterday arr)).currency
         = "USD") ∧
    (∀ (meter : String) (arr : List Interval),
       (import_write_call meter arr).currency = some "USD") ∧
    costMetaCurrency Option.none = "USD" ∧
    costMetaCurrency (some "") = "USD" ∧
    costMetaCurrency (some "USD") = "USD" := by
  refine ⟨fun _ _ => rfl, fun _ _ => rfl, rfl, by simp [costMetaCurrency], by decide⟩

theorem findBill_eq_find? (target : Int) :
    ∀ bills : List Bill,
      findBill target bills
        = (bills.find? (billEligible target)).map billDailyCost := by
  intro bills
  induction bills with
  | nil => rfl
  | cons b rest ih =>
    simp only [findBill]
    cases htf : (billTotal b).toFloat with
    | none =>
      have he : billEligible target b = false := by
        simp [billEligible, htf]
      simp [List.find?_cons, he, ih]
    | some tf =>
      cases hbd : billDates b with
      | none =>
        have he : billEligible target b = false := by
          simp [billEligible, htf, hbd]
        simp [List.find?_cons, he, ih]
      | some pr =>
        obtain ⟨a, c⟩ := pr
        by_cases hin : a ≤ target ∧ target < c
        · have he : billEligible target b = true := by
            simp [billEligible, htf, hbd, hin.1, hin.2]
          have hd : (if c - a = 0 then (1 : Int) else c - a) = max 1 (c - a) := by
            omega
          have hv : billDailyCost b = tf / ((max 1 (c - a) : Int) : ℚ) := by
            simp [billDailyCost, htf, hbd]
          simp [List.find?_cons, he, hin, hd, hv]
        · have he : billEligible target b = false := by
            simp only [billEligible, htf, hbd, Option.isSome_some, Bool.true_and]
            rcases Decidable.not_and_iff_or_not.1 hin with h | h <;>
              simp [h]
          simp [List.find?_cons, he, hin, ih]

/-- C5: when the reported daily cost is `None` or exactly `0`, the engine
walks the bills in source order and selects the first whose parsed period
contains the target day, skipping bills whose total is not float-coercible
or whose bounds are falsy or unparsable; the selected bill yields
`daily_cost = total / max(1, (p_end - p_start).days)`; and when the reported
cost is neither `None` nor `0`, the whole step is a no-op. -/
theorem c5_bill_selection (target : Int) (bills : List Bill) (dcost : Option ℚ)
    (hrs : List Entry) (hc : dcost ≠ Option.none ∧ dcost ≠ some 0) :
    findBill target bills
      = (bills.find? (billEligible target)).map billDailyCost ∧
    (∀ b : Bill, billEligible target b = true →
      ∃ a c : Int, billDates b = some (a, c) ∧ a ≤ target ∧ target < c ∧
        billDailyCost b
          = ((billTotal b).toFloat).getD 0 / ((max 1 (c - a) : Int) : ℚ)) ∧
    estimate_and_distribute target bills dcost hrs = (dcost, hrs) := by
  refine ⟨findBill_eq_find? target bills, ?_, ?_⟩
  · intro b he
    cases htf : (billTotal b).toFloat with
    | none => simp [billEligible, htf] at he
    | some tf =>
      cases hbd : billDates b with
      | none => simp [billEligible, htf, hbd] at he
      | some pr =>
        obtain ⟨a, c⟩ := pr
        simp only [billEligible, htf, hbd, Option.isSome_some, Bool.true_and,
          Bool.and_eq_true, decide_eq_true_eq] at he
        exact ⟨a, c, rfl, he.1, he.2, by simp [billDailyCost, htf, hbd]⟩
  · unfold estimate_and_distribute
    rw [if_neg]
    rintro (h | h)
    · exact hc.1 h
    · exact hc.2 h

theorem c5_bill_selection_witness :
    findBill 19737
        [⟨.dov 19723, .dov 19754, .none, .none, .num 310, .none, .none⟩]
      = (([⟨.dov 19723, .dov 19754, .none, .none, .num 310, .none, .none⟩] :
          List Bill).find? (billEligible 19737)).map billDailyCost :=
  (c5_bill_selection 19737
    [⟨.dov 19723, .dov 19754, .none, .none, .num 310, .none, .none⟩]
    (some 3) [] ⟨by simp, by simp⟩).1

/-- C6: once a daily cost estimate is obtained, every hour's cost becomes
`daily_cost * (hour.usage / day.usage)` when the day's summed usage is
positive, and otherwise `daily_cost / max(1, hour count)`; concretely, the
bill {start: 2024-01-01 (day 19723), end: 2024-02-01 (day 19754),
total: 310} covering 2024-01-15 (day 19737) yields `daily_cost = 310/31 = 10`
and, with the day's hours summing to usage 31, each hour's apportioned cost
is `10 * (usage/31)`. -/
theorem c6_cost_distribution (est : ℚ) (hrs : List Entry) :
    (0 < (hrs.map Entry.usage).sum →
      distributeCost est hrs
        = hrs.map (fun h =>
            { h with cost := some (est * (h.usage / (hrs.map Entry.usage).sum)) })) ∧
    (¬ 0 < (hrs.map Entry.usage).sum →
      distributeCost est hrs
        = hrs.map (fun h =>
            { h with cost := some (est / ((max 1 hrs.length : ℕ) : ℚ)) })) ∧
    findBill 19737
        [⟨.dov 19723, .dov 19754, .none, .none, .num 310, .none, .none⟩]
      = some 10 ∧
    distributeCost 10
        [⟨some "2024-01-15T00:00:00Z", Option.none, 30, Option.none, some "kwh"⟩,
         ⟨some "2024-01-15T01:00:00Z", Option.none, 1, Option.none, some "kwh"⟩]
      = [⟨some "2024-01-15T00:00:00Z", Option.none, 30, some (10 * (30 / 31)),
          some "kwh"⟩,
         ⟨some "2024-01-15T01:00:00Z", Option.none, 1, some (10 * (1 / 31)),
          some "kwh"⟩] := by
  refine ⟨?_, ?_, ?_, ?_⟩
  · intro hpos
    unfold distributeCost
    rw [if_pos hpos]
  · intro hneg
    unfold distributeCost
    rw [if_neg hneg]
    apply List.map_congr_left
    intro h hmem
    have hdiv : (((if hrs.length = 0 then (1 : Int) else hrs.length) : Int) : ℚ)
        = ((max 1 hrs.length : ℕ) : ℚ) := by
      rcases Nat.eq_zero_or_pos hrs.length with hl | hl
      · simp [hl]
      · rw [if_neg (by omega), Nat.max_eq_right hl]
        push_cast
        rfl
    rw [hdiv]
  · norm_num [findBill, billTotal, billDates, billDailyCost, pvOr, PVal.truthy,
      PVal.toFloat, svOr, SVal.truthy, svalToDate]
  · norm_num [distributeCost]

theorem c6_cost_distribution_witness :
    distributeCost 10
        [(⟨Option.none, Option.none, 31, Option.none, Option.none⟩ : Entry)]
      = ([⟨Option.none, Option.none, 31, Option.none, Option.none⟩] :
          List Entry).map
          (fun h =>
            { h with cost := some (10 * (h.usage /
                (([(⟨Option.none, Option.none, 31, Option.none,
                    Option.none⟩ : Entry)]).map Entry.usage).sum)) }) :=
  (c6_cost_distribution 10
    [⟨Option.none, Option.none, 31, Option.none, Option.none⟩]).1 (by norm_num)

theorem import_foldl_cost_none (rs : List Reading) :
    ∀ acc : List Entry × Option String,
      (∀ en ∈ acc.1, en.cost = Option.none) →
      ∀ en ∈ (rs.foldl importReadingStep acc).1, en.cost = Option.none := by
  induction rs with
  | nil => intro acc hacc en hen; exact hacc en hen
  | cons r rest ih =>
    intro acc hacc en hen
    refine ih (importReadingStep acc r) ?_ en hen
    intro x hx
    unfold importReadingStep at hx
    rcases List.mem_append.1 hx with h | h
    · exact hacc x h
    · rw [List.mem_singleton.1 h]

theorem import_day_cost_none (arr : List Interval) :
    ∀ en ∈ (import_day arr).1, en.cost = Option.none := by
  unfold import_day
  exact import_foldl_cost_none _ ([], Option.none) (by intro en hen; cases hen)

theorem import_walk_eq_range (fetch : Int → List Interval) :
    ∀ (n : ℕ) (s e : Int), (e - s).toNat = n →
      import_walk fetch s e
        = (List.range n).map
            (fun i : ℕ => (s + (i : Int), import_day (fetch (s + (i : Int))))) := by
  intro n
  induction n with
  | zero =>
    intro s e hn
    rw [import_walk, if_neg (by omega)]
    rfl
  | succ m ih =>
    intro s e hn
    rw [import_walk, if_pos (by omega), List.range_succ_eq_map, List.map_cons,
      List.map_map]
    congr 1
    · norm_num
    · rw [ih (s + 1) e (by omega)]
      apply List.map_congr_left
      intro i _
      have hcast : s + 1 + (i : Int) = s + ((Nat.succ i : ℕ) : Int) := by
        push_cast
        ring
      simp only [Function.comp_apply, ← hcast]

/-- C7 counterexample: an interval payload whose single reading carries a
datapoint cost of 5.  The bulk-import normalization emits the record with
cost `None` — the raw cost is not carried through — while the coordinator's
normalization of the very same payload yields cost 5, showing the cost was
present in the raw intervals. -/
theorem c7_import_always_null_cost :
    (import_day [⟨[⟨some "2024-01-01T05:00:00Z", Option.none,
        [⟨.num 2, some "kwh", .num 5⟩], .none⟩]⟩]).1.map Entry.cost
      = [Option.none] ∧
    (normalize_intervals "2024-01-01"
        [⟨[⟨some "2024-01-01T05:00:00Z", Option.none,
            [⟨.num 2, some "kwh", .num 5⟩], .none⟩]⟩]).hours.map Entry.cost
      = [some 5] ∧
    (Option.none : Option ℚ) ≠ some 5 := by
  have h1 : ("2024-01-01T05:00:00Z" = "") = False := by simp
  have h2 : "2024-01-01T05:00:00Z".take 10 = "2024-01-01" := by decide
  refine ⟨?_, ?_, by simp⟩ <;>
    norm_num [import_day, importReadingStep, normalize_intervals, stepReading,
      readingEntry, readingDatapoints, readingCost, readingDayKey, appendDay,
      PVal.isNone, PVal.toFloat, h1, h2]

/-- C7 amended: the bulk-import operation walks the half-open day range
`[start, end)` one calendar day at a time, normalizing each day's intervals
and issuing a statistics write, with no bill-based cost estimation anywhere
on the path; but every imported hourly record's cost is `None`
unconditionally — a cost present in the raw intervals is not carried
through. -/
theorem c7_import_walk (fetch : Int → List Interval) (s e : Int) :
    import_walk fetch s e
      = (List.range (e - s).toNat).map
          (fun i : ℕ => (s + (i : Int), import_day (fetch (s + (i : Int))))) ∧
    (∀ x ∈ import_walk fetch s e, ∀ en ∈ x.2.1, en.cost = Option.none) := by
  refine ⟨import_walk_eq_range fetch _ s e rfl, ?_⟩
  intro x hx en hen
  rw [import_walk_eq_range fetch _ s e rfl] at hx
  obtain ⟨i, _, hxi⟩ := List.mem_map.1 hx
  have : x.2 = import_day (fetch (s + (i : Int))) := by rw [← hxi]
  rw [this] at hen
  exact import_day_cost_none _ en hen

theorem c7_import_walk_witness :
    import_walk (fun _ => ([] : List Interval)) 0 2
      = (List.range ((2 : Int) - 0).toNat).map
          (fun i : ℕ => ((0 : Int) + (i : Int),
            import_day ((fun _ => ([] : List Interval)) ((0 : Int) + (i : Int))))) :=
  (c7_import_walk (fun _ => []) 0 2).1

end UtilityAPI
